import Mathlib

/-!
Verification of the request-construction layer of `server.py`, a small MCP
server exposing four tools (`sol_create_wallet`, `sol_transfer_sol`,
`sol_execute_trade`, `sol_create_token`) that forward to one upstream REST
service.

Modelling conventions:
- Byte strings are modelled as `List Char` (`Str`), one symbol per byte.
  The source concatenates UTF-8 encoded text with raw file bytes; since the
  multipart and form framings only match on ASCII delimiter characters and
  UTF-8 multi-byte sequences contain no ASCII bytes, the symbol-level model
  is faithful to the byte-level one.
- Python scalars appearing in request bodies are modelled by `PyVal`.
  A float is modelled by its `repr` string (shortest round-trip decimal as
  produced by `str()`); e.g. the source literal `0.00001` has repr `1e-05`.
- `urllib.request.urlopen` is modelled by a `Transport` record whose methods
  return `Except PyErr`; a non-2xx response is `PyErr.httpError` (the model
  of `urllib.error.HTTPError`, which carries status code and raw body).
  `open(path, "rb")` is modelled by a `FileStore`; a missing path gives
  `PyErr.fileNotFound` (the model of the built-in `FileNotFoundError`).
  `uuid.uuid4().hex` is modelled by an explicit boundary parameter; a value
  drawn from that entropy source is a 32-character lowercase hex string.
- `json.loads` / `json.dumps(..., indent=2)` are modelled by `loads` /
  `dumps2` below, restricted to integer numerics (the claims under
  verification use no floating-point JSON numbers).
-/

/-- Byte strings, one `Char` per byte. -/
abbrev Str := List Char

/-- Convenience: the characters of a Lean string literal. -/
def chars (s : String) : Str := s.data

/-- CRLF line terminator used by the multipart wire format. -/
def crlf : Str := ['\r', '\n']

/-- Two hyphens, the multipart delimiter introducer. -/
def dashdash : Str := ['-', '-']

/-- Decides whether `p` is an initial segment of `l`. -/
def startsWith : Str → Str → Bool
  | [], _ => true
  | _ :: _, [] => false
  | p :: ps, c :: cs => p == c && startsWith ps cs

/-- If `p` starts `l`, drop it and return the remainder. -/
def stripStart? (p l : Str) : Option Str :=
  if startsWith p l then some (l.drop p.length) else none

/-- Split `l` at the first occurrence of `sep`, returning the part before
and the part after the separator. -/
def splitFirst (sep : Str) : Str → Option (Str × Str)
  | [] => if startsWith sep [] then some ([], []) else none
  | c :: l =>
    if startsWith sep (c :: l) then some ([], (c :: l).drop sep.length)
    else (splitFirst sep l).map (fun p => (c :: p.1, p.2))

/-- Decides whether `n` occurs as a contiguous substring of `h`. -/
def containsSub (n : Str) : Str → Bool
  | [] => startsWith n []
  | c :: h => startsWith n (c :: h) || containsSub n h

theorem startsWith_append (p r : Str) : startsWith p (p ++ r) = true := by
  induction p with
  | nil => rfl
  | cons c ps ih => simp [startsWith, ih]

theorem startsWith_iff {p l : Str} : startsWith p l = true ↔ ∃ r, l = p ++ r := by
  constructor
  · intro h
    induction p generalizing l with
    | nil => exact ⟨l, rfl⟩
    | cons c ps ih =>
      cases l with
      | nil => simp [startsWith] at h
      | cons d ds =>
        simp only [startsWith, Bool.and_eq_true, beq_iff_eq] at h
        obtain ⟨rfl, h2⟩ := h
        obtain ⟨r, rfl⟩ := ih h2
        exact ⟨r, rfl⟩
  · rintro ⟨r, rfl⟩
    exact startsWith_append p r

theorem startsWith_false_of_head_ne {p l : Str} {c d : Char} (hp : p = c :: p.tail)
    (hl : l = d :: l.tail) (hne : d ≠ c) : startsWith p l = false := by
  rw [hp, hl]
  simp [startsWith, (Ne.symm hne)]

theorem stripStart?_append (p r : Str) : stripStart? p (p ++ r) = some r := by
  simp [stripStart?, startsWith_append, List.drop_left]

theorem splitFirst_eq_append {sep l a r : Str} (h : splitFirst sep l = some (a, r)) :
    l = a ++ sep ++ r := by
  induction l generalizing a r with
  | nil =>
    cases sep with
    | nil =>
      simp only [splitFirst, startsWith, if_true, List.drop_nil, Option.some.injEq,
        Prod.mk.injEq] at h
      obtain ⟨h1, h2⟩ := h
      subst h1; subst h2; rfl
    | cons c cs =>
      simp [splitFirst, startsWith] at h
  | cons c l ih =>
    simp only [splitFirst] at h
    by_cases hs : startsWith sep (c :: l) = true
    · rw [if_pos hs] at h
      obtain ⟨r0, h0⟩ := startsWith_iff.mp hs
      simp only [Option.some.injEq, Prod.mk.injEq] at h
      obtain ⟨h1, h2⟩ := h
      subst h1
      rw [h0, List.drop_left] at h2
      subst h2
      simpa using h0
    · rw [if_neg hs] at h
      cases hsp : splitFirst sep l with
      | none => rw [hsp] at h; simp at h
      | some p =>
        obtain ⟨a0, r0⟩ := p
        rw [hsp] at h
        simp only [Option.map_some', Option.some.injEq, Prod.mk.injEq] at h
        obtain ⟨h1, h2⟩ := h
        have hl : l = a0 ++ sep ++ r0 := ih hsp
        subst h1; subst h2
        simp [hl]

theorem splitFirst_shorter {sep l a r : Str} (hsep : sep ≠ [])
    (h : splitFirst sep l = some (a, r)) : r.length < l.length := by
  have := splitFirst_eq_append h
  subst this
  have : 1 ≤ sep.length := by
    cases sep with
    | nil => exact absurd rfl hsep
    | cons c cs => simp
  simp only [List.length_append]
  omega

/-- If `sep` occurs nowhere in `a ++ sep ++ r` before position `a.length`,
then `splitFirst` splits exactly at the marked occurrence. -/
theorem splitFirst_exact {sep a r : Str}
    (hno : ∀ i < a.length, startsWith sep ((a ++ sep ++ r).drop i) = false) :
    splitFirst sep (a ++ sep ++ r) = some (a, r) := by
  induction a with
  | nil =>
    simp only [List.nil_append]
    cases sep with
    | nil =>
      cases r <;> simp [splitFirst, startsWith]
    | cons s ss =>
      have h1 : startsWith (s :: ss) (s :: (ss ++ r)) = true := by
        have := startsWith_append (s :: ss) r
        simpa using this
      have h2 : (s :: (ss ++ r)).drop (s :: ss).length = r := by
        simp only [List.length_cons, List.drop_succ_cons]
        exact List.drop_left ss r
      simp only [List.cons_append, splitFirst, List.append_eq, h1, if_true, h2]
  | cons c a ih =>
    have h0 : startsWith sep (c :: (a ++ sep ++ r)) = false := by
      have := hno 0 (by simp)
      simpa using this
    have ih2 : splitFirst sep (a ++ sep ++ r) = some (a, r) := by
      apply ih
      intro i hi
      have := hno (i + 1) (by simpa using Nat.succ_lt_succ hi)
      simpa using this
    simp only [List.cons_append, splitFirst, List.append_eq]
    rw [h0, if_neg (by simp), ih2]
    rfl

theorem containsSub_iff {n h : Str} :
    containsSub n h = true ↔ ∃ i, startsWith n (h.drop i) = true := by
  induction h with
  | nil =>
    simp only [containsSub]
    constructor
    · intro hh; exact ⟨0, hh⟩
    · rintro ⟨i, hi⟩; simpa using hi
  | cons c t ih =>
    simp only [containsSub, Bool.or_eq_true, ih]
    constructor
    · rintro (hh | ⟨i, hi⟩)
      · exact ⟨0, hh⟩
      · exact ⟨i + 1, by simpa using hi⟩
    · rintro ⟨i, hi⟩
      cases i with
      | zero => exact Or.inl (by simpa using hi)
      | succ j => exact Or.inr ⟨j, by simpa using hi⟩

theorem containsSub_of_middle (n a b : Str) : containsSub n (a ++ n ++ b) = true := by
  refine containsSub_iff.mpr ⟨a.length, ?_⟩
  rw [List.append_assoc, List.drop_left]
  exact startsWith_append n b

/-! ## Percent-encoding: `urllib.parse.urlencode` with its default
`quote_via=quote_plus`, safe set `''`. -/

/-- Characters never percent-encoded by `urllib.parse.quote` (the
`_ALWAYS_SAFE` set: ASCII letters, digits, `_ . - ~`). -/
def alwaysSafe (c : Char) : Bool :=
  ('A' ≤ c && c ≤ 'Z') || ('a' ≤ c && c ≤ 'z') || ('0' ≤ c && c ≤ '9') ||
    c == '_' || c == '.' || c == '-' || c == '~'

/-- Uppercase hexadecimal digit, as used by `urllib.parse.quote`. -/
def hexDigitUpper (n : Nat) : Char :=
  if n < 10 then Char.ofNat ('0'.toNat + n) else Char.ofNat ('A'.toNat + n - 10)

/-- Percent-escape of one byte: `%` followed by two uppercase hex digits. -/
def percentByte (b : Nat) : Str :=
  ['%', hexDigitUpper (b / 16), hexDigitUpper (b % 16)]

/-- UTF-8 bytes of one character (RFC 3629). -/
def utf8Bytes (c : Char) : List Nat :=
  let n := c.toNat
  if n < 0x80 then [n]
  else if n < 0x800 then [0xC0 + n / 64, 0x80 + n % 64]
  else if n < 0x10000 then [0xE0 + n / 4096, 0x80 + n / 64 % 64, 0x80 + n % 64]
  else [0xF0 + n / 262144, 0x80 + n / 4096 % 64, 0x80 + n / 64 % 64, 0x80 + n % 64]

/-- `urllib.parse.quote_plus` on one character with `safe=''`: safe
characters pass through, space becomes `+`, anything else is
percent-escaped byte by byte. -/
def quotePlusChar (c : Char) : Str :=
  if alwaysSafe c then [c]
  else if c = ' ' then ['+']
  else (utf8Bytes c).flatMap percentByte

/-- `urllib.parse.quote_plus` with `safe=''`, as applied by `urlencode` to
every key and stringified value. -/
def quotePlus (s : Str) : Str := s.flatMap quotePlusChar

/-! ## Python scalar values and `str()` -/

/-- Python scalar values appearing in request bodies.  A float is carried
as its `repr` string (what `str()` prints). -/
inductive PyVal where
  | str (s : Str)
  | int (n : Int)
  | float (rep : Str)
  | bool (b : Bool)
deriving DecidableEq, Repr

/-- Python `str()` of a scalar: identity on strings, decimal for ints,
the carried repr for floats, capitalized `True` / `False` for booleans. -/
def pyStr : PyVal → Str
  | .str s => s
  | .int n => chars (toString n)
  | .float rep => rep
  | .bool true => chars "True"
  | .bool false => chars "False"

/-- One `k=v` item of `urllib.parse.urlencode`: both the key and the
stringified value are passed through `quote_plus`. -/
def urlencodeItem (p : Str × PyVal) : Str :=
  quotePlus p.1 ++ '=' :: quotePlus (pyStr p.2)

/-- `urllib.parse.urlencode`: items in mapping order joined with `&`. -/
def urlencode (pairs : List (Str × PyVal)) : Str :=
  List.intercalate ['&'] (pairs.map urlencodeItem)

/-- Body construction of `_post_json` (line 37 of `server.py`):
`urlencode` over the pairs whose value is not `None`. -/
def formEncode (data : List (Str × Option PyVal)) : Str :=
  urlencode (data.filterMap (fun p => p.2.map (fun v => (p.1, v))))

/-! ## Errors, transport and file system models -/

/-- Failures the source can surface: `FileNotFoundError` from `open`,
`urllib.error.HTTPError` (non-2xx status, carrying status code and raw
body), `urllib.error.URLError` (network failure or timeout), and
`json.JSONDecodeError`.  These are, respectively, the code-level carriers
of the spec's `InvalidInputError`, `TransportError` (both variants) and
`MalformedResponseError`. -/
inductive PyErr where
  | fileNotFound (path : Str)
  | httpError (status : Nat) (body : Str)
  | urlError (msg : Str)
  | jsonDecode (doc : Str)
deriving DecidableEq, Repr

/-- Model of `urllib.request.urlopen`: `get url` performs a GET, `post url
body contentType` performs a POST with the given pre-encoded body and
optional explicit `Content-Type` header (`none` means urllib's default
for form POSTs).  A non-2xx response or network failure is an `Except`
error. -/
structure Transport where
  get : Str → Except PyErr Str
  post : Str → Str → Option Str → Except PyErr Str

/-- Model of the local file system as seen by `open(path, "rb")`:
`none` means the path does not exist or is unreadable. -/
abbrev FileStore := Str → Option Str

/-! ## JSON values, `json.loads` and `json.dumps(..., indent=2)` -/

/-- JSON tree.  Object keys are kept in the order the document lists
them, exactly as Python dicts preserve insertion order.  Numbers are
restricted to integers: no claim under verification involves
floating-point JSON numerics. -/
inductive Json where
  | null
  | bool (b : Bool)
  | int (n : Int)
  | str (s : Str)
  | arr (xs : List Json)
  | obj (kvs : List (Str × Json))

/-- One of the four JSON insignificant-whitespace characters (RFC 8259,
the set Python `json` skips). -/
def jsonWsChar (c : Char) : Bool :=
  match c with
  | ' ' => true
  | '\t' => true
  | '\n' => true
  | '\r' => true
  | _ => false

/-- Drop insignificant whitespace before a JSON token. -/
def skipWs (s : Str) : Str := s.dropWhile jsonWsChar

/-- Value of one hexadecimal digit, if any (working on the code point:
digits 48-57, lowercase 97-102, uppercase 65-70). -/
def hexVal (c : Char) : Option Nat :=
  let n := c.toNat
  if 48 ≤ n ∧ n ≤ 57 then some (n - 48)
  else if 97 ≤ n ∧ n ≤ 102 then some (n - 87)
  else if 65 ≤ n ∧ n ≤ 70 then some (n - 55)
  else none

/-- Decode one JSON string escape after the backslash.  `\uXXXX` is
accepted for scalar values outside the surrogate range (surrogate-pair
decoding is out of modelled scope). -/
def escChar? (e : Char) (rest : Str) : Option (Char × Str) :=
  if e = '"' then some ('"', rest)
  else if e = '\\' then some ('\\', rest)
  else if e = '/' then some ('/', rest)
  else if e = 'b' then some ('\x08', rest)
  else if e = 'f' then some ('\x0C', rest)
  else if e = 'n' then some ('\n', rest)
  else if e = 'r' then some ('\r', rest)
  else if e = 't' then some ('\t', rest)
  else if e = 'u' then
    match rest with
    | h1 :: h2 :: h3 :: h4 :: r =>
      (hexVal h1).bind fun a => (hexVal h2).bind fun b =>
      (hexVal h3).bind fun c => (hexVal h4).bind fun d =>
      let n := ((a * 16 + b) * 16 + c) * 16 + d
      if 0xD800 ≤ n && n ≤ 0xDFFF then none
      else some (Char.ofNat n, r)
    | _ => none
  else none

/-- Digits to a natural number, most significant first. -/
def digitsToNat (ds : List Char) : Nat :=
  ds.foldl (fun a c => a * 10 + (c.toNat - '0'.toNat)) 0

/-- Parse a JSON integer literal (optional minus sign, digits).  A
following `.`, `e` or `E` would start a float literal, which is outside
the modelled subset, so it is rejected. -/
def parseIntTok (s : Str) : Option (Int × Str) :=
  let neg := startsWith ['-'] s
  let s1 := if neg then s.drop 1 else s
  let ds := s1.takeWhile (fun c => '0' ≤ c && c ≤ '9')
  let rest := s1.drop ds.length
  if ds = [] then none
  else
    match rest with
    | '.' :: _ => none
    | 'e' :: _ => none
    | 'E' :: _ => none
    | _ => some ((if neg then -(digitsToNat ds : Int) else (digitsToNat ds : Int)), rest)

mutual

/-- Parse one JSON value (fuel-bounded recursive descent modelling
`json.loads`); returns the value and the unconsumed remainder. -/
def parseVal : Nat → Str → Option (Json × Str)
  | 0, _ => none
  | fuel + 1, s0 =>
    let s := skipWs s0
    if startsWith (chars "null") s then some (.null, s.drop 4)
    else if startsWith (chars "true") s then some (.bool true, s.drop 4)
    else if startsWith (chars "false") s then some (.bool false, s.drop 5)
    else
      match s with
      | '"' :: rest => (parseStringBody fuel rest).map (fun p => (.str p.1, p.2))
      | '[' :: rest => parseArr fuel rest
      | '\x7b' :: rest => parseObj fuel rest
      | _ => (parseIntTok s).map (fun p => (.int p.1, p.2))

/-- Parse an array body, positioned just after `[`. -/
def parseArr : Nat → Str → Option (Json × Str)
  | 0, _ => none
  | fuel + 1, s =>
    match skipWs s with
    | ']' :: rest => some (.arr [], rest)
    | s1 => (parseVal fuel s1).bind fun p =>
        (parseArrRest fuel p.2).map fun q => (.arr (p.1 :: q.1), q.2)

/-- Parse `, value`* `]`, the tail of a non-empty array. -/
def parseArrRest : Nat → Str → Option (List Json × Str)
  | 0, _ => none
  | fuel + 1, s =>
    match skipWs s with
    | ']' :: rest => some ([], rest)
    | ',' :: rest => (parseVal fuel rest).bind fun p =>
        (parseArrRest fuel p.2).map fun q => (p.1 :: q.1, q.2)
    | _ => none

/-- Parse an object body, positioned just after the opening brace. -/
def parseObj : Nat → Str → Option (Json × Str)
  | 0, _ => none
  | fuel + 1, s =>
    match skipWs s with
    | '\x7d' :: rest => some (.obj [], rest)
    | '"' :: rest => (parseStringBody fuel rest).bind fun k =>
        (parseColonVal fuel k.2).bind fun v =>
          (parseObjRest fuel v.2).map fun q => (.obj ((k.1, v.1) :: q.1), q.2)
    | _ => none

/-- Parse `: value` after an object key. -/
def parseColonVal : Nat → Str → Option (Json × Str)
  | 0, _ => none
  | fuel + 1, s =>
    match skipWs s with
    | ':' :: rest => parseVal fuel rest
    | _ => none

/-- Parse the tail of a non-empty object: `, "key": value`* and the
closing brace. -/
def parseObjRest : Nat → Str → Option (List (Str × Json) × Str)
  | 0, _ => none
  | fuel + 1, s =>
    match skipWs s with
    | '\x7d' :: rest => some ([], rest)
    | ',' :: rest =>
      match skipWs rest with
      | '"' :: r2 => (parseStringBody fuel r2).bind fun k =>
          (parseColonVal fuel k.2).bind fun v =>
            (parseObjRest fuel v.2).map fun q => ((k.1, v.1) :: q.1, q.2)
      | _ => none
    | _ => none

/-- Parse a JSON string body, positioned just after the opening quote. -/
def parseStringBody : Nat → Str → Option (Str × Str)
  | 0, _ => none
  | fuel + 1, s =>
    match s with
    | [] => none
    | '"' :: rest => some ([], rest)
    | '\\' :: e :: rest =>
      (escChar? e rest).bind fun p =>
        (parseStringBody fuel p.2).map fun q => (p.1 :: q.1, q.2)
    | c :: rest =>
      if c.toNat < 0x20 then none
      else (parseStringBody fuel rest).map fun q => (c :: q.1, q.2)

end

/-- Model of `json.loads`: the whole document must parse as one JSON
value with only whitespace around it, else `json.JSONDecodeError`. -/
def loads (doc : Str) : Except PyErr Json :=
  match parseVal (doc.length + 1) doc with
  | some (j, rest) => if skipWs rest = [] then .ok j else .error (.jsonDecode doc)
  | none => .error (.jsonDecode doc)

/-- Lowercase hexadecimal digit, as used in `\uXXXX` escapes. -/
def hexDigitLower (n : Nat) : Char :=
  if n < 10 then Char.ofNat ('0'.toNat + n) else Char.ofNat ('a'.toNat + n - 10)

/-- One `\uXXXX` escape for a code unit. -/
def uEscape4 (n : Nat) : Str :=
  ['\\', 'u', hexDigitLower (n / 4096 % 16), hexDigitLower (n / 256 % 16),
    hexDigitLower (n / 16 % 16), hexDigitLower (n % 16)]

/-- Unicode escape of a character, with a surrogate pair beyond the BMP
(`ensure_ascii=True` behaviour of `json.dumps`). -/
def uEscape (c : Char) : Str :=
  let n := c.toNat
  if n < 0x10000 then uEscape4 n
  else uEscape4 (0xD800 + (n - 0x10000) / 1024) ++ uEscape4 (0xDC00 + (n - 0x10000) % 1024)

/-- Escape of one character inside a dumped JSON string. -/
def jsonEscChar (c : Char) : Str :=
  if c = '"' then ['\\', '"']
  else if c = '\\' then ['\\', '\\']
  else if c = '\n' then ['\\', 'n']
  else if c = '\r' then ['\\', 'r']
  else if c = '\t' then ['\\', 't']
  else if c.toNat = 8 then ['\\', 'b']
  else if c.toNat = 12 then ['\\', 'f']
  else if c.toNat < 0x20 || 0x7e < c.toNat then uEscape c
  else [c]

/-- A dumped JSON string with its quotes. -/
def jsonQuote (s : Str) : Str := '"' :: s.flatMap jsonEscChar ++ ['"']

/-- Indentation of `2 * lvl` spaces, as produced by `indent=2`. -/
def indSp (lvl : Nat) : Str := List.replicate (2 * lvl) ' '

mutual

/-- Model of `json.dumps(value, indent=2)` at nesting level `lvl`: keys
stay in stored order (`sort_keys=False`), items are separated by `,` plus
a newline, keys by `: `, and empty containers print on one line. -/
def dumpsVal (lvl : Nat) : Json → Str
  | .null => chars "null"
  | .bool true => chars "true"
  | .bool false => chars "false"
  | .int n => chars (toString n)
  | .str s => jsonQuote s
  | .arr [] => chars "[]"
  | .arr (x :: xs) =>
    '[' :: '\n' :: (dumpsItems (lvl + 1) (x :: xs) ++ '\n' :: (indSp lvl ++ [']']))
  | .obj [] => ['\x7b', '\x7d']
  | .obj (kv :: kvs) =>
    '\x7b' :: '\n' :: (dumpsPairs (lvl + 1) (kv :: kvs) ++ '\n' :: (indSp lvl ++ ['\x7d']))

/-- Array items, each on its own indented line. -/
def dumpsItems (lvl : Nat) : List Json → Str
  | [] => []
  | [x] => indSp lvl ++ dumpsVal lvl x
  | x :: y :: ys => indSp lvl ++ dumpsVal lvl x ++ ',' :: '\n' :: dumpsItems lvl (y :: ys)

/-- Object members, each on its own indented line. -/
def dumpsPairs (lvl : Nat) : List (Str × Json) → Str
  | [] => []
  | [(k, v)] => indSp lvl ++ jsonQuote k ++ ':' :: ' ' :: dumpsVal lvl v
  | (k, v) :: p :: ps =>
    indSp lvl ++ jsonQuote k ++ ':' :: ' ' :: dumpsVal lvl v ++ ',' :: '\n' :: dumpsPairs lvl (p :: ps)

end

/-- Top-level `json.dumps(value, indent=2)`. -/
def dumps2 (j : Json) : Str := dumpsVal 0 j

/-! ## Filenames and content types -/

/-- POSIX `os.path.basename`: everything after the last `/`. -/
def basename (p : Str) : Str := (p.reverse.takeWhile (fun c => c ≠ '/')).reverse

/-- Extension part of `posixpath.splitext`: the suffix from the last dot,
unless every character before that dot is itself a dot. -/
def splitextExt (base : Str) : Str :=
  let afterDot := base.reverse.takeWhile (fun c => c ≠ '.')
  if afterDot.length = base.length then []
  else
    let stem := base.take (base.length - afterDot.length - 1)
    if stem.all (fun c => c = '.') then [] else '.' :: afterDot.reverse

/-- Extension-to-MIME table: the rows of the stdlib `mimetypes.types_map`
needed here (any extension outside the table takes the fallback branch,
exactly as in the source). -/
def mimeTable : List (Str × Str) :=
  [(chars ".png", chars "image/png"),
   (chars ".jpg", chars "image/jpeg"),
   (chars ".jpeg", chars "image/jpeg"),
   (chars ".gif", chars "image/gif"),
   (chars ".webp", chars "image/webp"),
   (chars ".bmp", chars "image/bmp"),
   (chars ".svg", chars "image/svg+xml"),
   (chars ".txt", chars "text/plain"),
   (chars ".json", chars "application/json"),
   (chars ".pdf", chars "application/pdf")]

/-- First value bound to `k` in an association list. -/
def lookupStr (k : Str) : List (Str × Str) → Option Str
  | [] => none
  | p :: ps => if p.1 = k then some p.2 else lookupStr k ps

/-- Model of `mimetypes.guess_type(filename)[0] or
'application/octet-stream'` (line 58 of `server.py`): look up the
lowercased extension, falling back to the generic binary type. -/
def mimeGuess (filename : Str) : Str :=
  let ext := (splitextExt filename).map Char.toLower
  (lookupStr ext mimeTable).getD (chars "application/octet-stream")

/-! ## The multipart/form-data encoder of `_post_multipart` -/

/-- A Python binary file object: its `.name` and the bytes `.read()`
returns. -/
structure PyFile where
  name : Str
  content : Str
deriving DecidableEq, Repr

/-- Header line of a text part. -/
def cdTextLine (k : Str) : Str :=
  chars "Content-Disposition: form-data; name=\"" ++ k ++ ['"']

/-- Chunk a text field contributes to the body (lines 49-53 of
`server.py`). -/
def textChunk (b k : Str) (v : PyVal) : Str :=
  dashdash ++ b ++ crlf ++ cdTextLine k ++ crlf ++ crlf ++ pyStr v ++ crlf

/-- First header line of a file part. -/
def cdFileLine (field filename : Str) : Str :=
  chars "Content-Disposition: form-data; name=\"" ++ field ++
    chars "\"; filename=\"" ++ filename ++ ['"']

/-- Second header line of a file part. -/
def ctLine (filetype : Str) : Str := chars "Content-Type: " ++ filetype

/-- Chunk a file field contributes to the body (lines 55-63 of
`server.py`): filename is the basename of the file's path, content type
is guessed from that filename. -/
def fileChunk (b field : Str) (f : PyFile) : Str :=
  dashdash ++ b ++ crlf ++ cdFileLine field (basename f.name) ++ crlf ++
    ctLine (mimeGuess (basename f.name)) ++ crlf ++ crlf ++ f.content ++ crlf

/-- Closing delimiter (line 65 of `server.py`). -/
def closeChunk (b : Str) : Str := dashdash ++ b ++ dashdash ++ crlf

/-- Body built by `_post_multipart` with boundary `b`: text chunks for
non-`None` fields in mapping order, then file chunks, then the closing
delimiter, mirroring the accumulating `data +=` loop of the source. -/
def multipartBody (b : Str) (fields : List (Str × Option PyVal))
    (files : List (Str × PyFile)) : Str :=
  let d1 := fields.foldl (fun acc p =>
    match p.2 with
    | none => acc
    | some v => acc ++ textChunk b p.1 v) []
  let d2 := files.foldl (fun acc p => acc ++ fileChunk b p.1 p.2) d1
  d2 ++ closeChunk b

/-- Value of the `Content-Type` request header set by `_post_multipart`. -/
def multipartContentType (b : Str) : Str :=
  chars "multipart/form-data; boundary=" ++ b

/-- Lowercase hexadecimal digit, the alphabet of `uuid.uuid4().hex`. -/
def hexLowerDigit (c : Char) : Bool :=
  ('0' ≤ c && c ≤ '9') || ('a' ≤ c && c ≤ 'f')

/-- Lowercase-hex boundary as drawn from `uuid.uuid4().hex`: 32
hexadecimal characters, i.e. 128 bits of entropy. -/
def isBoundaryTok (b : Str) : Bool :=
  b.length == 32 && b.all hexLowerDigit

/-- Boundary token of a multipart body with a hex boundary: the hex run
after the leading two hyphens. -/
def boundaryOf (body : Str) : Str := (body.drop 2).takeWhile hexLowerDigit

/-! ## The transport helpers and the four tools -/

/-- Body of `_get_json` (lines 32-34 of `server.py`). -/
def get_json (t : Transport) (url : Str) : Except PyErr Json :=
  (t.get url).bind loads

/-- Body of `_post_json` (lines 36-40 of `server.py`). -/
def post_json (t : Transport) (url : Str) (data : List (Str × Option PyVal)) :
    Except PyErr Json :=
  (t.post url (formEncode data) none).bind loads

/-- Body of `_post_multipart` (lines 42-70 of `server.py`), with the
boundary drawn from `uuid.uuid4().hex` passed explicitly. -/
def post_multipart (t : Transport) (b url : Str) (fields : List (Str × Option PyVal))
    (files : List (Str × PyFile)) : Except PyErr Json :=
  (t.post url (multipartBody b fields files) (some (multipartContentType b))).bind loads

/-- Configured upstream base URL (default of `PUMP_BASE_URL`). -/
def SOL_BASE : Str := chars "https://api-solana.nodra.app"

/-- Tool `sol_create_wallet` (lines 74-83 of `server.py`). -/
def sol_create_wallet (t : Transport) : Except PyErr Str :=
  (get_json t (SOL_BASE ++ chars "/pump/createWallet")).map dumps2

/-- The `body` dict literal of `sol_transfer_sol` (lines 100-104 of
`server.py`), in source order. -/
def transferSolData (fromPrivateKey toPublicKey : Str) (amountSol : PyVal) :
    List (Str × Option PyVal) :=
  [(chars "fromPrivateKey", some (.str fromPrivateKey)),
   (chars "toPublicKey", some (.str toPublicKey)),
   (chars "amountSol", some amountSol)]

/-- Form body `sol_transfer_sol` hands to the transport. -/
def transferSolBody (fromPrivateKey toPublicKey : Str) (amountSol : PyVal) : Str :=
  formEncode (transferSolData fromPrivateKey toPublicKey amountSol)

/-- Tool `sol_transfer_sol` (lines 85-105 of `server.py`). -/
def sol_transfer_sol (t : Transport) (fromPrivateKey toPublicKey : Str)
    (amountSol : PyVal) : Except PyErr Str :=
  (post_json t (SOL_BASE ++ chars "/pump/transferSOL")
    (transferSolData fromPrivateKey toPublicKey amountSol)).map dumps2

/-- The `body` dict literal of `sol_execute_trade` (lines 124-133 of
`server.py`), in source order. -/
def executeTradeData (privateKeyBase58 publicKey mint : Str) (action : Str)
    (denominatedInSol : Bool) (amount slippage priorityFee : PyVal) :
    List (Str × Option PyVal) :=
  [(chars "privateKeyBase58", some (.str privateKeyBase58)),
   (chars "publicKey", some (.str publicKey)),
   (chars "mint", some (.str mint)),
   (chars "action", some (.str action)),
   (chars "denominatedInSol", some (.bool denominatedInSol)),
   (chars "amount", some amount),
   (chars "slippage", some slippage),
   (chars "priorityFee", some priorityFee)]

/-- Form body `sol_execute_trade` hands to the transport. -/
def executeTradeBody (privateKeyBase58 publicKey mint : Str) (action : Str)
    (denominatedInSol : Bool) (amount slippage priorityFee : PyVal) : Str :=
  formEncode (executeTradeData privateKeyBase58 publicKey mint action
    denominatedInSol amount slippage priorityFee)

/-- Tool `sol_execute_trade` (lines 107-134 of `server.py`), all
arguments explicit. -/
def sol_execute_trade (t : Transport) (privateKeyBase58 publicKey mint : Str)
    (action : Str) (denominatedInSol : Bool) (amount slippage priorityFee : PyVal) :
    Except PyErr Str :=
  (post_json t (SOL_BASE ++ chars "/pump/executeTrade")
    (executeTradeData privateKeyBase58 publicKey mint action denominatedInSol
      amount slippage priorityFee)).map dumps2

/-- Default of `action`. -/
def tradeActionDefault : Str := chars "buy"

/-- Default of `denominatedInSol`. -/
def tradeDenominatedInSolDefault : Bool := false

/-- Default of `amount` (the float literal `0.001`). -/
def tradeAmountDefault : PyVal := .float (chars "0.001")

/-- Default of `slippage` (the literal `10`, an int). -/
def tradeSlippageDefault : PyVal := .int 10

/-- Default of `priorityFee`: the float literal `0.00001`, whose Python
repr (hence `str()`) is `1e-05`. -/
def tradePriorityFeeDefault : PyVal := .float (chars "1e-05")

/-- `sol_execute_trade` called with only the required arguments, the
optional ones taking their declared defaults. -/
def sol_execute_trade_defaults (t : Transport) (privateKeyBase58 publicKey mint : Str) :
    Except PyErr Str :=
  sol_execute_trade t privateKeyBase58 publicKey mint tradeActionDefault
    tradeDenominatedInSolDefault tradeAmountDefault tradeSlippageDefault
    tradePriorityFeeDefault

/-- Default of `devBuy` in `sol_create_token`. -/
def tokenDevBuyDefault : PyVal := .float (chars "0.001")

/-- Tool `sol_create_token` (lines 136-154 of `server.py`): opens the
image file first (a missing or unreadable path fails right there, before
any transport use), then posts the multipart body. -/
def sol_create_token (t : Transport) (fs : FileStore) (boundary : Str)
    (fromPrivateKey imagePath tokenName tokenSymbol tokenDescription : Str)
    (devBuy : PyVal) : Except PyErr Str :=
  match fs imagePath with
  | none => .error (.fileNotFound imagePath)
  | some content =>
    (post_multipart t boundary (SOL_BASE ++ chars "/pump/createToken")
      [(chars "fromPrivateKey", some (.str fromPrivateKey)),
       (chars "tokenName", some (.str tokenName)),
       (chars "tokenSymbol", some (.str tokenSymbol)),
       (chars "tokenDescription", some (.str tokenDescription)),
       (chars "devBuy", some devBuy)]
      [(chars "file", ⟨imagePath, content⟩)]).map dumps2

/-! ## A conformant multipart/form-data parser

Used to state the round-trip property: split the body on the delimiter
`CRLF "--" boundary` (RFC 2046 framing, with the first delimiter at the
very start of the body and the closing delimiter ending in `--`), then
read each part's `Content-Disposition` (and, for file parts,
`Content-Type`) headers. -/

/-- One decoded body part. -/
structure MPart where
  name : Str
  filename : Option Str
  contentType : Option Str
  body : Str
deriving DecidableEq, Repr

/-- Parse a `Content-Disposition: form-data` header line: the `name`
attribute and, if present, the `filename` attribute. -/
def parseCD (line : Str) : Option (Str × Option Str) :=
  (stripStart? (chars "Content-Disposition: form-data; name=\"") line).bind fun r =>
    (splitFirst ['"'] r).bind fun p =>
      if p.2 = [] then some (p.1, none)
      else
        (stripStart? (chars "; filename=\"") p.2).bind fun r2 =>
          (splitFirst ['"'] r2).bind fun q =>
            if q.2 = [] then some (p.1, some q.1) else none

/-- Parse one part: split headers from payload at the first blank line,
then read the one or two header lines the encoder emits. -/
def parsePart (C : Str) : Option MPart :=
  (splitFirst (crlf ++ crlf) C).bind fun pc =>
    match splitFirst crlf pc.1 with
    | none => (parseCD pc.1).map fun q => ⟨q.1, q.2, none, pc.2⟩
    | some hl =>
      (parseCD hl.1).bind fun q =>
        (stripStart? (chars "Content-Type: ") hl.2).map fun ct =>
          ⟨q.1, q.2, some ct, pc.2⟩

/-- Fuel-bounded delimiter scan.  The input is positioned right after an
occurrence of `"--" ++ b`; `--` means the closing delimiter was reached,
otherwise a CRLF begins the next part, which extends to the next
`CRLF "--" b`. -/
def parsePartsAux (b : Str) : Nat → Str → Option (List Str)
  | 0, _ => none
  | fuel + 1, rest =>
    if startsWith dashdash rest then some []
    else
      match stripStart? crlf rest with
      | none => none
      | some r1 =>
        match splitFirst (crlf ++ dashdash ++ b) r1 with
        | none => none
        | some p => (parsePartsAux b fuel p.2).map (p.1 :: ·)

/-- Split a multipart body into its raw part contents. -/
def parseMultipartRaw (b body : Str) : Option (List Str) :=
  (stripStart? (dashdash ++ b) body).bind fun rest =>
    parsePartsAux b (rest.length + 1) rest

/-- Parse every raw part, failing if any one fails. -/
def partsMapOpt : List Str → Option (List MPart)
  | [] => some []
  | c :: cs => (parsePart c).bind fun p => (partsMapOpt cs).map (p :: ·)

/-- Full multipart parse: delimiter scan, then per-part headers. -/
def parseMultipart (b body : Str) : Option (List MPart) :=
  (parseMultipartRaw b body).bind partsMapOpt

/-! ## Part contents and framing views of the encoder output -/

/-- Content of a text part (headers and payload, between delimiters). -/
def textContent (k : Str) (v : PyVal) : Str :=
  cdTextLine k ++ crlf ++ crlf ++ pyStr v

/-- Content of a file part (headers and payload, between delimiters). -/
def fileContent (field : Str) (f : PyFile) : Str :=
  cdFileLine field (basename f.name) ++ crlf ++
    ctLine (mimeGuess (basename f.name)) ++ crlf ++ crlf ++ f.content

/-- Part contents the encoder emits, in order: text fields with a value,
then file fields. -/
def multipartParts (fields : List (Str × Option PyVal))
    (files : List (Str × PyFile)) : List Str :=
  fields.filterMap (fun p => p.2.map (fun v => textContent p.1 v)) ++
    files.map (fun p => fileContent p.1 p.2)

/-- Framing of one part content: delimiter line, content, CRLF. -/
def chunkOf (b C : Str) : Str := dashdash ++ b ++ crlf ++ C ++ crlf

/-- The body as seen right after the leading `"--" ++ b`: for each part a
CRLF, the content and the next delimiter, ending in the closing `--`
CRLF. -/
def restStream (b : Str) : List Str → Str
  | [] => dashdash ++ crlf
  | C :: cs => crlf ++ C ++ (crlf ++ dashdash ++ b) ++ restStream b cs

/-- Parts the round trip must recover: every non-`None` text field with
its stringified value, and every file with its basename, guessed content
type and raw content. -/
def expectedParts (fields : List (Str × Option PyVal))
    (files : List (Str × PyFile)) : List MPart :=
  fields.filterMap (fun p => p.2.map (fun v => MPart.mk p.1 none none (pyStr v))) ++
    files.map (fun p =>
      MPart.mk p.1 (some (basename p.2.name)) (some (mimeGuess (basename p.2.name)))
        p.2.content)

/-- A name the encoder can frame unambiguously: no quote (it would close
the `name="..."` attribute early) and no CR (it would break the header
line). -/
def tokenSafe (k : Str) : Bool := k.all (fun c => c ≠ '"' && c ≠ '\r')

/-- A text field the boundary cannot collide with: safe name, and the
boundary token does not occur in the part's content. -/
def fieldSafe (b : Str) (p : Str × Option PyVal) : Bool :=
  tokenSafe p.1 &&
    (match p.2 with
     | none => true
     | some v => !containsSub b (textContent p.1 v))

/-- A file field the boundary cannot collide with: safe field name and
filename, and the boundary token does not occur in the part's content. -/
def fileSafe (b : Str) (p : Str × PyFile) : Bool :=
  tokenSafe p.1 && tokenSafe (basename p.2.name) &&
    !containsSub b (fileContent p.1 p.2)

/-! ## Transport stubs used in the theorems -/

/-- Transport whose every exchange yields the same response body. -/
def constTransport (body : Str) : Transport :=
  { get := fun _ => .ok body, post := fun _ _ _ => .ok body }

/-- Transport whose every exchange fails with the given HTTP status and
error body (a stub upstream returning a non-2xx response). -/
def failTransport (status : Nat) (body : Str) : Transport :=
  { get := fun _ => .error (.httpError status body),
    post := fun _ _ _ => .error (.httpError status body) }

/-- Transport accepting exactly one POST: the expected URL and body yield
`resp`, anything else (including any GET) fails.  An operation succeeds
against it only by sending exactly the expected request. -/
def checkingTransport (expUrl expBody resp : Str) : Transport :=
  { get := fun _ => .error (.urlError (chars "unexpected request")),
    post := fun url body _ =>
      if url = expUrl ∧ body = expBody then .ok resp
      else .error (.urlError (chars "unexpected request")) }

/-! ## Concrete inputs used by counterexamples and witnesses -/

/-- Form body of `sol_execute_trade` with required arguments `P`, `Q`,
`M` and every optional argument at its default. -/
def tradeDefaultBodyPQM : Str :=
  executeTradeBody (chars "P") (chars "Q") (chars "M") tradeActionDefault
    tradeDenominatedInSolDefault tradeAmountDefault tradeSlippageDefault
    tradePriorityFeeDefault

/-- A 32-character lowercase hex boundary, as `uuid.uuid4().hex` yields. -/
def cexBoundary : Str := chars "0123456789abcdef0123456789abcdef"

/-- A second, distinct draw from the same entropy source. -/
def cexBoundary2 : Str := chars "00112233445566778899aabbccddeeff"

/-- A text value that embeds a forged delimiter and part for the given
boundary. -/
def cexEvilValue : Str :=
  crlf ++ dashdash ++ cexBoundary ++ crlf ++
    chars "Content-Disposition: form-data; name=\"evil\"" ++ crlf ++ crlf ++ chars "x"

/-- Field mapping holding the forged-delimiter text value. -/
def cexFields : List (Str × Option PyVal) :=
  [(chars "tokenName", some (.str cexEvilValue))]

/-- One file field with innocuous content. -/
def cexFiles : List (Str × PyFile) :=
  [(chars "file", ⟨chars "img.png", chars "IMGDATA"⟩)]

/-- A well-behaved field mapping for the round-trip witness. -/
def rtFields : List (Str × Option PyVal) :=
  [(chars "tokenName", some (.str (chars "tok"))), (chars "skip", none),
   (chars "devBuy", some (.float (chars "0.001")))]

/-- A file list for the round-trip witness whose content even contains a
boundary-like `--` run. -/
def rtFiles : List (Str × PyFile) :=
  [(chars "file", ⟨chars "/tmp/img.png", chars "IMG--DATA"⟩)]

/-! ## Supporting lemmas on percent-encoding -/

theorem quotePlus_append (a c : Str) :
    quotePlus (a ++ c) = quotePlus a ++ quotePlus c := by
  simp [quotePlus]

theorem char_toNat_lt (c : Char) : c.toNat < 1114112 := by
  have hv := c.valid
  rcases hv with h | ⟨h1, h2⟩
  · calc c.val.toNat < 55296 := h
      _ < 1114112 := by norm_num
  · exact h2

theorem utf8Bytes_lt {c : Char} : ∀ x ∈ utf8Bytes c, x < 256 := by
  intro x hx
  have hc : c.toNat < 1114112 := char_toNat_lt c
  simp only [utf8Bytes] at hx
  split_ifs at hx <;>
    (simp only [List.mem_cons, List.not_mem_nil, or_false] at hx) <;>
    (rcases hx with rfl | rfl | rfl | rfl <;> omega)

theorem hexDigitUpper_mem : ∀ m < 16, hexDigitUpper m ∈ chars "0123456789ABCDEF" := by
  decide

theorem amp_notMem_percentByte {x : Nat} (hx : x < 256) : '&' ∉ percentByte x := by
  intro hmem
  simp only [percentByte, List.mem_cons, List.not_mem_nil, or_false] at hmem
  rcases hmem with h | h | h
  · exact absurd h (by decide)
  · exact absurd (h ▸ hexDigitUpper_mem (x / 16) (by omega)) (by decide)
  · exact absurd (h ▸ hexDigitUpper_mem (x % 16) (by omega)) (by decide)

theorem amp_notMem_quotePlusChar (c : Char) : '&' ∉ quotePlusChar c := by
  intro hmem
  simp only [quotePlusChar] at hmem
  split_ifs at hmem with h1 h2
  · simp only [List.mem_singleton] at hmem
    subst hmem
    exact absurd h1 (by decide)
  · simp only [List.mem_singleton] at hmem
    exact absurd hmem (by decide)
  · obtain ⟨x, hx, hmm⟩ := List.mem_flatMap.mp hmem
    exact amp_notMem_percentByte (utf8Bytes_lt x hx) hmm

theorem amp_notMem_quotePlus (s : Str) : '&' ∉ quotePlus s := by
  intro hmem
  obtain ⟨c, _, h2⟩ := List.mem_flatMap.mp hmem
  exact amp_notMem_quotePlusChar c h2

/-! ## Claim C2 -/

/-- C2 counterexample: the claim names the form keys `fromKey`,
`toAddress`, `amount`, but `sol_transfer_sol` builds its body dict with
the keys `fromPrivateKey`, `toPublicKey`, `amountSol`, so the encoded
body is not the claimed string. -/
theorem c2_counterexample :
    transferSolBody (chars "A") (chars "B") (.float (chars "0.02"))
      ≠ chars "fromKey=A&toAddress=B&amount=0.02" := by
  decide

/-- C2 amended: with arguments `A`, `B`, `0.02` the transfer operation
produces exactly the body `fromPrivateKey=A&toPublicKey=B&amountSol=0.02`;
and every value containing `&` is percent-encoded: its encoding contains
`%26` and no raw `&` survives encoding. -/
theorem c2_transfer_body_exact :
    transferSolBody (chars "A") (chars "B") (.float (chars "0.02"))
      = chars "fromPrivateKey=A&toPublicKey=B&amountSol=0.02" ∧
    (∀ s : Str, '&' ∈ s →
      containsSub (chars "%26") (quotePlus s) = true ∧ '&' ∉ quotePlus s) := by
  refine ⟨by decide, fun s hs => ⟨?_, amp_notMem_quotePlus s⟩⟩
  obtain ⟨a, t, rfl⟩ := List.append_of_mem hs
  rw [show a ++ '&' :: t = a ++ ['&'] ++ t by simp]
  rw [quotePlus_append, quotePlus_append]
  rw [show quotePlus ['&'] = chars "%26" from by decide]
  exact containsSub_of_middle _ _ _

/-- C2 witness: the percent-encoding conjunct at the concrete value
`A&B`. -/
theorem c2_witness :
    ('&' ∈ chars "A&B") ∧
    containsSub (chars "%26") (quotePlus (chars "A&B")) = true ∧
    '&' ∉ quotePlus (chars "A&B") :=
  ⟨by decide, (c2_transfer_body_exact.2 (chars "A&B") (by decide)).1,
    (c2_transfer_body_exact.2 (chars "A&B") (by decide)).2⟩

/-! ## Claim C3 -/

/-- C3: a `None`-valued key is omitted entirely by both encoders: the
form body and the multipart body are the same with the pair present and
with it removed, and a mapping of only `None` values form-encodes to the
empty body (so no `key=`, `key=None` or `null` item can ever stem from an
absent value). -/
theorem c3_none_values_omitted :
    (∀ (pre post : List (Str × Option PyVal)) (k : Str),
      formEncode (pre ++ (k, none) :: post) = formEncode (pre ++ post)) ∧
    (∀ (b : Str) (pre post : List (Str × Option PyVal)) (k : Str)
      (files : List (Str × PyFile)),
      multipartBody b (pre ++ (k, none) :: post) files
        = multipartBody b (pre ++ post) files) ∧
    (∀ k : Str, formEncode [(k, none)] = []) := by
  refine ⟨fun pre post k => ?_, fun b pre post k files => ?_, fun k => rfl⟩
  · simp [formEncode, List.filterMap_append]
  · simp [multipartBody, List.foldl_append]

/-! ## Claim C4 -/

/-- C4: when the image path is missing or unreadable, `sol_create_token`
fails with the file-open error (the code-level carrier of the spec's
`InvalidInputError`), and the result does not depend on the transport at
all — the failure happens before any network call could be made. -/
theorem c4_missing_file_fails_before_network :
    ∀ (t : Transport) (fs : FileStore) (bnd fromPriv imgPath nm sy ds : Str)
      (devBuy : PyVal),
      fs imgPath = none →
      sol_create_token t fs bnd fromPriv imgPath nm sy ds devBuy
        = .error (.fileNotFound imgPath) := by
  intro t fs bnd fromPriv imgPath nm sy ds devBuy h
  simp [sol_create_token, h]

/-- C4 witness: a concrete empty file store and a transport that would
answer any request, yet the call fails with the file error. -/
theorem c4_witness :
    ((fun _ => none : FileStore) (chars "img.png") = none) ∧
    sol_create_token (constTransport (chars "\x7b\x7d")) (fun _ => none) cexBoundary
      (chars "K") (chars "img.png") (chars "N") (chars "S") (chars "D")
      tokenDevBuyDefault
      = .error (.fileNotFound (chars "img.png")) :=
  ⟨rfl, c4_missing_file_fails_before_network (constTransport (chars "\x7b\x7d"))
    (fun _ => none) cexBoundary (chars "K") (chars "img.png") (chars "N")
    (chars "S") (chars "D") tokenDevBuyDefault rfl⟩

/-! ## Claim C5 -/

/-- C5: a non-2xx upstream response surfaces as the HTTP error carrying
the exact status and raw body (the code-level carrier of the spec's
`TransportError`), for the concrete 500 / insufficient-funds stub
against `sol_execute_trade` and for every operation, status, body and
argument list. -/
theorem c5_transport_error_propagates :
    (sol_execute_trade_defaults
      (failTransport 500 (chars "\x7b\"error\":\"insufficient funds\"\x7d"))
      (chars "P") (chars "Q") (chars "M")
      = .error (.httpError 500 (chars "\x7b\"error\":\"insufficient funds\"\x7d"))) ∧
    (∀ (status : Nat) (body : Str) (a1 a2 : Str) (v : PyVal) (p1 p2 p3 act : Str)
      (den : Bool) (am sl fee : PyVal) (bnd f1 f2 f3 f4 f5 : Str) (dv : PyVal)
      (content : Str),
      sol_create_wallet (failTransport status body)
        = .error (.httpError status body) ∧
      sol_transfer_sol (failTransport status body) a1 a2 v
        = .error (.httpError status body) ∧
      sol_execute_trade (failTransport status body) p1 p2 p3 act den am sl fee
        = .error (.httpError status body) ∧
      sol_create_token (failTransport status body) (fun _ => some content) bnd
        f1 f2 f3 f4 f5 dv
        = .error (.httpError status body)) := by
  refine ⟨rfl, ?_⟩
  intros
  exact ⟨rfl, rfl, rfl, rfl⟩

/-! ## Claim C6 -/

/-- C6: against a stub returning the three-key wallet object,
`sol_create_wallet` returns exactly the 2-space-indented text with the
keys in upstream order; and in general every one of the four operations
returns the `indent=2` dump of whatever JSON the upstream body parses
to, keys kept in the order the upstream returned them. -/
theorem c6_create_wallet_pretty :
    (sol_create_wallet (constTransport
      (chars "\x7b\"apiKey\":\"k1\",\"walletPublicKey\":\"p1\",\"privateKey\":\"s1\"\x7d"))
      = .ok (chars "\x7b\n  \"apiKey\": \"k1\",\n  \"walletPublicKey\": \"p1\",\n  \"privateKey\": \"s1\"\n\x7d")) ∧
    (∀ (body : Str) (j : Json), loads body = .ok j →
      sol_create_wallet (constTransport body) = .ok (dumps2 j) ∧
      (∀ (a1 a2 : Str) (v : PyVal),
        sol_transfer_sol (constTransport body) a1 a2 v = .ok (dumps2 j)) ∧
      (∀ (p1 p2 p3 act : Str) (den : Bool) (am sl fee : PyVal),
        sol_execute_trade (constTransport body) p1 p2 p3 act den am sl fee
          = .ok (dumps2 j)) ∧
      (∀ (bnd f1 f2 f3 f4 f5 : Str) (dv : PyVal) (content : Str),
        sol_create_token (constTransport body) (fun _ => some content) bnd
          f1 f2 f3 f4 f5 dv = .ok (dumps2 j))) := by
  constructor
  · rfl
  · intro body j h
    have key : ((Except.ok body).bind loads).map dumps2
        = (.ok (dumps2 j) : Except PyErr Str) := by
      rw [show (Except.ok body).bind loads = loads body from rfl, h]
      rfl
    exact ⟨key, fun a1 a2 v => key, fun p1 p2 p3 act den am sl fee => key,
      fun bnd f1 f2 f3 f4 f5 dv content => key⟩

/-- C6 witness: the general conjunct at a concrete parsed body, for the
GET operation and one POST operation. -/
theorem c6_witness :
    loads (chars "\x7b\"a\":1\x7d") = .ok (.obj [(chars "a", .int 1)]) ∧
    sol_create_wallet (constTransport (chars "\x7b\"a\":1\x7d"))
      = .ok (dumps2 (.obj [(chars "a", .int 1)])) ∧
    sol_transfer_sol (constTransport (chars "\x7b\"a\":1\x7d"))
      (chars "A") (chars "B") (.float (chars "0.5"))
      = .ok (dumps2 (.obj [(chars "a", .int 1)])) :=
  ⟨rfl,
    (c6_create_wallet_pretty.2 (chars "\x7b\"a\":1\x7d")
      (.obj [(chars "a", .int 1)]) rfl).1,
    (c6_create_wallet_pretty.2 (chars "\x7b\"a\":1\x7d")
      (.obj [(chars "a", .int 1)]) rfl).2.1 (chars "A") (chars "B")
      (.float (chars "0.5"))⟩

/-! ## Claim C7 -/

/-- C7 counterexample: the default-argument call of the trade operation
sends none of the argument names the claim lists — no `assetId`, no
`denominatedInBase`, no `privateKey` key appears in the body it posts. -/
theorem c7_counterexample :
    containsSub (chars "assetId") tradeDefaultBodyPQM = false ∧
    containsSub (chars "denominatedInBase") tradeDefaultBodyPQM = false ∧
    containsSub (chars "privateKey=") tradeDefaultBodyPQM = false := by
  decide

/-- C7 amended: `sol_execute_trade` requires `privateKeyBase58`,
`publicKey` and `mint`, and its optional arguments default to
`action="buy"`, `denominatedInSol=False`, `amount=0.001`, `slippage=10`,
`priorityFee=0.00001`; a call supplying only the required arguments posts
exactly those defaults to the `/pump/executeTrade` endpoint (the
transport below accepts only that exact URL and body). -/
theorem c7_execute_trade_defaults :
    tradeDefaultBodyPQM
      = chars "privateKeyBase58=P&publicKey=Q&mint=M&action=buy&denominatedInSol=False&amount=0.001&slippage=10&priorityFee=1e-05" ∧
    sol_execute_trade_defaults
      (checkingTransport (SOL_BASE ++ chars "/pump/executeTrade")
        (chars "privateKeyBase58=P&publicKey=Q&mint=M&action=buy&denominatedInSol=False&amount=0.001&slippage=10&priorityFee=1e-05")
        (chars "\x7b\x7d"))
      (chars "P") (chars "Q") (chars "M") = .ok (chars "\x7b\x7d") := by
  exact ⟨by decide, rfl⟩

/-! ## Claim C8 -/

/-- C8 counterexample: the encoder does not send lowercase booleans and
does use scientific notation — the default trade body carries
`denominatedInSol=False` (capitalized, no `=false` anywhere) and
`priorityFee=1e-05` (not `0.00001`). -/
theorem c8_counterexample :
    pyStr (.bool false) ≠ chars "false" ∧
    containsSub (chars "denominatedInSol=False") tradeDefaultBodyPQM = true ∧
    containsSub (chars "=false") tradeDefaultBodyPQM = false ∧
    containsSub (chars "priorityFee=1e-05") tradeDefaultBodyPQM = true ∧
    containsSub (chars "priorityFee=0.00001") tradeDefaultBodyPQM = false := by
  decide

/-- C8 amended: values are stringified with Python `str()`: booleans as
capitalized `True` / `False`, floats as their repr, which may be
scientific notation — in particular the default `denominatedInSol` is
sent as `False` and the default `priorityFee` as `1e-05`. -/
theorem c8_stringification :
    (∀ bv : Bool, pyStr (.bool bv) = (if bv then chars "True" else chars "False")) ∧
    pyStr tradePriorityFeeDefault = chars "1e-05" ∧
    containsSub (chars "denominatedInSol=False") tradeDefaultBodyPQM = true ∧
    containsSub (chars "priorityFee=1e-05") tradeDefaultBodyPQM = true := by
  refine ⟨fun bv => ?_, rfl, by decide, by decide⟩
  cases bv <;> rfl

/-! ## Claim C10 -/

/-- C10: no operation checks that the upstream body is a JSON object —
arrays, strings, numbers, `null` and booleans are accepted and
re-serialized with 2-space indentation, concretely for
`sol_create_wallet` and generically for the three POST operations. -/
theorem c10_non_object_json_accepted :
    (sol_create_wallet (constTransport (chars "[1, 2]")) = .ok (chars "[\n  1,\n  2\n]")) ∧
    (sol_create_wallet (constTransport (chars "\"x\"")) = .ok (chars "\"x\"")) ∧
    (sol_create_wallet (constTransport (chars "3")) = .ok (chars "3")) ∧
    (sol_create_wallet (constTransport (chars "null")) = .ok (chars "null")) ∧
    (sol_create_wallet (constTransport (chars "true")) = .ok (chars "true")) ∧
    (∀ (body : Str) (j : Json), loads body = .ok j →
      ∀ (a1 a2 : Str) (v : PyVal) (p1 p2 p3 act : Str) (den : Bool)
        (am sl fee : PyVal) (bnd f1 f2 f3 f4 f5 : Str) (dv : PyVal) (content : Str),
        sol_transfer_sol (constTransport body) a1 a2 v = .ok (dumps2 j) ∧
        sol_execute_trade (constTransport body) p1 p2 p3 act den am sl fee
          = .ok (dumps2 j) ∧
        sol_create_token (constTransport body) (fun _ => some content) bnd
          f1 f2 f3 f4 f5 dv = .ok (dumps2 j)) := by
  refine ⟨rfl, rfl, rfl, rfl, rfl, ?_⟩
  intro body j h a1 a2 v p1 p2 p3 act den am sl fee bnd f1 f2 f3 f4 f5 dv content
  have key : ((Except.ok body).bind loads).map dumps2
      = (.ok (dumps2 j) : Except PyErr Str) := by
    rw [show (Except.ok body).bind loads = loads body from rfl, h]
    rfl
  exact ⟨key, key, key⟩

/-- C10 witness: the general conjunct at the concrete non-object body
`[]`. -/
theorem c10_witness :
    loads (chars "[]") = .ok (.arr []) ∧
    sol_transfer_sol (constTransport (chars "[]")) (chars "A") (chars "B") (.int 1)
      = .ok (dumps2 (.arr [])) :=
  ⟨rfl, (c10_non_object_json_accepted.2.2.2.2.2 (chars "[]") (.arr []) rfl
    (chars "A") (chars "B") (.int 1) (chars "P") (chars "Q") (chars "M")
    (chars "buy") false (.int 1) (.int 1) (.int 1) cexBoundary2 (chars "K")
    (chars "i.png") (chars "N") (chars "S") (chars "D") (.int 1) (chars "C")).1⟩

/-! ## Framing lemmas for the multipart encoder -/

theorem multipart_fields_foldl (b : Str) (fields : List (Str × Option PyVal))
    (acc : Str) :
    fields.foldl (fun acc p =>
      match p.2 with
      | none => acc
      | some v => acc ++ textChunk b p.1 v) acc
      = acc ++ (fields.filterMap (fun p => p.2.map (fun v => textChunk b p.1 v))).flatten := by
  induction fields generalizing acc with
  | nil => simp
  | cons x xs ih =>
    obtain ⟨k, ov⟩ := x
    cases ov with
    | none => simp [List.foldl_cons, ih, List.filterMap_cons]
    | some v => simp [List.foldl_cons, ih, List.filterMap_cons]

theorem multipart_files_foldl (b : Str) (files : List (Str × PyFile)) (acc : Str) :
    files.foldl (fun acc p => acc ++ fileChunk b p.1 p.2) acc
      = acc ++ (files.map (fun p => fileChunk b p.1 p.2)).flatten := by
  induction files generalizing acc with
  | nil => simp
  | cons x xs ih => simp [List.foldl_cons, ih]

theorem textChunk_eq_chunkOf (b k : Str) (v : PyVal) :
    textChunk b k v = chunkOf b (textContent k v) := by
  simp [textChunk, chunkOf, textContent]

theorem fileChunk_eq_chunkOf (b field : Str) (f : PyFile) :
    fileChunk b field f = chunkOf b (fileContent field f) := by
  simp [fileChunk, chunkOf, fileContent]

theorem multipartBody_closed (b : Str) (fields : List (Str × Option PyVal))
    (files : List (Str × PyFile)) :
    multipartBody b fields files
      = ((multipartParts fields files).map (chunkOf b)).flatten ++ closeChunk b := by
  simp only [multipartBody]
  rw [multipart_fields_foldl, multipart_files_foldl]
  simp [multipartParts, List.map_filterMap, Option.map_map, Function.comp_def,
    List.map_map, textChunk_eq_chunkOf, fileChunk_eq_chunkOf]

theorem join_chunks_eq_restStream (b : Str) (cs : List Str) :
    ((cs.map (chunkOf b)).flatten) ++ closeChunk b = (dashdash ++ b) ++ restStream b cs := by
  induction cs with
  | nil => simp [restStream, closeChunk]
  | cons c cs ih =>
    simp only [List.map_cons, List.flatten_cons, restStream]
    rw [List.append_assoc, ih]
    simp [chunkOf]

theorem takeWhile_append_stop {p : Char → Bool} {u : Str} (hu : ∀ c ∈ u, p c = true)
    {d : Char} (hd : p d = false) (rest : Str) :
    (u ++ d :: rest).takeWhile p = u := by
  induction u with
  | nil => simp [List.takeWhile_cons, hd]
  | cons c cs ih =>
    have hc : p c = true := hu c (by simp)
    simp [List.takeWhile_cons, hc, ih (fun x hx => hu x (by simp [hx]))]

theorem isBoundaryTok_all_hex {b : Str} (hb : isBoundaryTok b = true) :
    ∀ c ∈ b, hexLowerDigit c = true := by
  have h2 := (Bool.and_eq_true _ _).mp hb |>.2
  exact fun c hc => List.all_eq_true.mp h2 c hc

theorem isBoundaryTok_no_cr {b : Str} (hb : isBoundaryTok b = true) : '\r' ∉ b := by
  intro hmem
  have := isBoundaryTok_all_hex hb '\r' hmem
  exact absurd this (by decide)

theorem boundaryOf_encode {b : Str} (hb : isBoundaryTok b = true)
    (fields : List (Str × Option PyVal)) (files : List (Str × PyFile)) :
    boundaryOf (multipartBody b fields files) = b := by
  have hall := isBoundaryTok_all_hex hb
  rw [multipartBody_closed, join_chunks_eq_restStream, boundaryOf]
  cases hcs : restStream b (multipartParts fields files) with
  | nil =>
    exact absurd hcs
      (by cases multipartParts fields files <;> simp [restStream, dashdash, crlf])
  | cons d tail =>
    have hd : hexLowerDigit d = false := by
      have hor : d = '-' ∨ d = '\r' := by
        cases hmp : multipartParts fields files with
        | nil =>
          rw [hmp] at hcs
          simp [restStream, dashdash, crlf] at hcs
          exact Or.inl hcs.1.symm
        | cons C cs =>
          rw [hmp] at hcs
          simp [restStream, dashdash, crlf] at hcs
          exact Or.inr hcs.1.symm
      rcases hor with rfl | rfl <;> decide
    have hdrop : ((dashdash ++ b) ++ (d :: tail)).drop 2 = b ++ d :: tail := by
      simp [dashdash]
    rw [hdrop]
    exact takeWhile_append_stop hall hd tail

/-! ## Claim C9 -/

/-- C9: (framing) the multipart body is exactly the concatenation, over
the parts in order, of `--boundary CRLF content CRLF`, followed by the
closing `--boundary-- CRLF`; (uniqueness) the boundary is the token drawn
fresh from the 128-bit entropy source (`uuid4().hex`) for that request,
so two encodings of the same input under distinct draws have distinct
bodies and distinct `Content-Type` headers. -/
theorem c9_framing_and_boundary_uniqueness :
    (∀ (b : Str) (fields : List (Str × Option PyVal)) (files : List (Str × PyFile)),
      multipartBody b fields files
        = ((multipartParts fields files).map (chunkOf b)).flatten ++ closeChunk b) ∧
    (∀ (b1 b2 : Str) (fields : List (Str × Option PyVal)) (files : List (Str × PyFile)),
      isBoundaryTok b1 = true → isBoundaryTok b2 = true → b1 ≠ b2 →
      multipartBody b1 fields files ≠ multipartBody b2 fields files ∧
      multipartContentType b1 ≠ multipartContentType b2) := by
  refine ⟨multipartBody_closed, fun b1 b2 fields files h1 h2 hne => ⟨?_, ?_⟩⟩
  · intro heq
    apply hne
    calc b1 = boundaryOf (multipartBody b1 fields files) :=
          (boundaryOf_encode h1 fields files).symm
      _ = boundaryOf (multipartBody b2 fields files) := by rw [heq]
      _ = b2 := boundaryOf_encode h2 fields files
  · intro heq
    apply hne
    exact List.append_cancel_left
      (show chars "multipart/form-data; boundary=" ++ b1
          = chars "multipart/form-data; boundary=" ++ b2 from heq)

/-- C9 witness: two concrete distinct hex draws give distinct bodies. -/
theorem c9_witness :
    isBoundaryTok cexBoundary = true ∧ isBoundaryTok cexBoundary2 = true ∧
    cexBoundary ≠ cexBoundary2 ∧
    multipartBody cexBoundary cexFields cexFiles
      ≠ multipartBody cexBoundary2 cexFields cexFiles :=
  ⟨by decide, by decide, by decide,
    (c9_framing_and_boundary_uniqueness.2 cexBoundary cexBoundary2 cexFields
      cexFiles (by decide) (by decide) (by decide)).1⟩

/-! ## Occurrence analysis for the multipart delimiter -/

theorem drop_append_of_le {l1 l2 : Str} {i : Nat} (h : i ≤ l1.length) :
    (l1 ++ l2).drop i = l1.drop i ++ l2 := by
  rw [List.drop_append_eq_append_drop, Nat.sub_eq_zero_of_le h, List.drop_zero]

theorem take_append_of_le {l1 l2 : Str} {i : Nat} (h : i ≤ l1.length) :
    (l1 ++ l2).take i = l1.take i := by
  rw [List.take_append_eq_append_take, Nat.sub_eq_zero_of_le h, List.take_zero,
    List.append_nil]

theorem head_mem_of_drop_lt {a : Str} {i : Nat} (h : i < a.length) :
    ∃ e es, a.drop i = e :: es ∧ e ∈ a := by
  have hlen : (a.drop i).length = a.length - i := List.length_drop ..
  have hne : a.drop i ≠ [] := by
    intro hnil
    rw [hnil] at hlen
    simp at hlen
    omega
  obtain ⟨e, es, hees⟩ := List.exists_cons_of_ne_nil hne
  refine ⟨e, es, hees, List.mem_of_mem_drop (l := a) (n := i) ?_⟩
  rw [hees]
  exact List.mem_cons_self e es

theorem startsWith_head_ne {x y : Char} {xs ys : Str} (hne : x ≠ y) :
    startsWith (x :: xs) (y :: ys) = false := by
  simp [startsWith, hne]

theorem splitFirst_none_head {h0 : Char} {s l : Str} (h : h0 ∉ l) :
    splitFirst (h0 :: s) l = none := by
  induction l with
  | nil => rfl
  | cons c t ih =>
    have hc : h0 ≠ c := fun he => h (he ▸ List.mem_cons_self c t)
    have ht : h0 ∉ t := fun hm => h (List.mem_cons_of_mem _ hm)
    simp [splitFirst, startsWith_head_ne hc, ih ht]

theorem no_occ_head {h0 : Char} (s : Str) {a : Str} (ha : h0 ∉ a) (r : Str) :
    ∀ i < a.length, startsWith (h0 :: s) ((a ++ (h0 :: s) ++ r).drop i) = false := by
  intro i hi
  rw [List.append_assoc, drop_append_of_le (Nat.le_of_lt hi)]
  obtain ⟨e, es, hees, hmem⟩ := head_mem_of_drop_lt hi
  rw [hees, List.cons_append]
  exact startsWith_head_ne (fun h => ha (h ▸ hmem))

theorem no_middle_occurrence {b C : Str} (hb : '\r' ∉ b)
    (hC : containsSub b C = false) (r : Str) :
    ∀ i < C.length,
      startsWith ('\r' :: '\n' :: '-' :: '-' :: b)
        ((C ++ ('\r' :: '\n' :: '-' :: '-' :: b) ++ r).drop i) = false := by
  intro i hi
  by_contra hcon
  have hsw : startsWith ('\r' :: '\n' :: '-' :: '-' :: b)
      ((C ++ ('\r' :: '\n' :: '-' :: '-' :: b) ++ r).drop i) = true := by
    revert hcon
    cases startsWith ('\r' :: '\n' :: '-' :: '-' :: b)
      ((C ++ ('\r' :: '\n' :: '-' :: '-' :: b) ++ r).drop i) <;> simp
  obtain ⟨t, ht⟩ := startsWith_iff.mp hsw
  rw [List.append_assoc, drop_append_of_le (Nat.le_of_lt hi)] at ht
  by_cases hcase : i + ('\r' :: '\n' :: '-' :: '-' :: b).length ≤ C.length
  · have hlen : ('\r' :: '\n' :: '-' :: '-' :: b).length ≤ (C.drop i).length := by
      rw [List.length_drop]
      omega
    have htake : (C.drop i).take ('\r' :: '\n' :: '-' :: '-' :: b).length
        = '\r' :: '\n' :: '-' :: '-' :: b := by
      have hcg := congrArg (List.take ('\r' :: '\n' :: '-' :: '-' :: b).length) ht
      rwa [take_append_of_le hlen, List.take_left] at hcg
    have hb4 : ((C.drop i).drop 4).take b.length = b := by
      have hcg := congrArg (List.drop 4) htake
      rw [List.drop_take] at hcg
      simpa using hcg
    have hbC : startsWith b (C.drop (i + 4)) = true := by
      apply startsWith_iff.mpr
      refine ⟨(C.drop (i + 4)).drop b.length, ?_⟩
      have hdd : (C.drop i).drop 4 = C.drop (i + 4) := by
        rw [List.drop_drop]
      rw [hdd] at hb4
      calc C.drop (i + 4)
          = (C.drop (i + 4)).take b.length ++ (C.drop (i + 4)).drop b.length :=
            (List.take_append_drop _ _).symm
        _ = b ++ (C.drop (i + 4)).drop b.length := by rw [hb4]
    have : containsSub b C = true := containsSub_iff.mpr ⟨i + 4, hbC⟩
    rw [hC] at this
    exact Bool.false_ne_true this
  · have hk1 : 1 ≤ (C.drop i).length := by
      rw [List.length_drop]
      omega
    have hk2 : (C.drop i).length < ('\r' :: '\n' :: '-' :: '-' :: b).length := by
      rw [List.length_drop]
      simp only [List.length_cons] at hcase ⊢
      omega
    have hdk := congrArg (List.drop (C.drop i).length) ht
    rw [List.drop_left, drop_append_of_le (Nat.le_of_lt hk2)] at hdk
    obtain ⟨e, es, hees, _⟩ := head_mem_of_drop_lt hk2
    rw [hees, List.cons_append] at hdk
    have he : e = '\r' := by
      have := congrArg List.head? hdk
      simpa using this.symm
    have hmem1 : e ∈ ('\n' :: '-' :: '-' :: b) := by
      have hdd : ('\r' :: '\n' :: '-' :: '-' :: b).drop (C.drop i).length
          = ('\n' :: '-' :: '-' :: b).drop ((C.drop i).length - 1) := by
        have h1 : (C.drop i).length = ((C.drop i).length - 1) + 1 := by omega
        rw [h1, List.drop_succ_cons]
        congr 1
      have : e ∈ ('\r' :: '\n' :: '-' :: '-' :: b).drop (C.drop i).length := by
        rw [hees]
        exact List.mem_cons_self e es
      rw [hdd] at this
      exact List.mem_of_mem_drop this
    subst he
    simp only [List.mem_cons] at hmem1
    rcases hmem1 with h | h | h | h
    · exact absurd h (by decide)
    · exact absurd h (by decide)
    · exact absurd h (by decide)
    · exact hb h

theorem splitFirst_delim {b C : Str} (hb : '\r' ∉ b)
    (hC : containsSub b C = false) (r : Str) :
    splitFirst ('\r' :: '\n' :: '-' :: '-' :: b)
      (C ++ ('\r' :: '\n' :: '-' :: '-' :: b) ++ r) = some (C, r) :=
  splitFirst_exact (no_middle_occurrence hb hC r)

theorem parsePartsAux_restStream {b : Str} (hb : '\r' ∉ b) :
    ∀ (cs : List Str), (∀ C ∈ cs, containsSub b C = false) →
      ∀ fuel, (restStream b cs).length ≤ fuel →
        parsePartsAux b fuel (restStream b cs) = some cs := by
  intro cs
  induction cs with
  | nil =>
    intro _ fuel hfuel
    match fuel with
    | 0 =>
      exfalso
      simp [restStream, dashdash, crlf] at hfuel
    | fuel + 1 =>
      have hsw : startsWith dashdash (restStream b []) = true :=
        startsWith_append dashdash crlf
      simp [parsePartsAux, hsw]
  | cons C cs ih =>
    intro hsafe fuel hfuel
    have hC : containsSub b C = false := hsafe C (List.mem_cons_self C cs)
    have hcs : ∀ x ∈ cs, containsSub b x = false :=
      fun x hx => hsafe x (List.mem_cons_of_mem C hx)
    match fuel with
    | 0 =>
      exfalso
      simp [restStream, crlf, dashdash] at hfuel
    | fuel + 1 =>
      have hrest : restStream b (C :: cs)
          = '\r' :: '\n' ::
              (C ++ ('\r' :: '\n' :: '-' :: '-' :: b) ++ restStream b cs) := by
        show crlf ++ C ++ (crlf ++ dashdash ++ b) ++ restStream b cs = _
        simp [crlf, dashdash]
      have hsw : startsWith dashdash
          ('\r' :: '\n' :: (C ++ ('\r' :: '\n' :: '-' :: '-' :: b) ++ restStream b cs))
          = false := startsWith_head_ne (by decide)
      have hst : stripStart? crlf
          ('\r' :: '\n' :: (C ++ ('\r' :: '\n' :: '-' :: '-' :: b) ++ restStream b cs))
          = some (C ++ ('\r' :: '\n' :: '-' :: '-' :: b) ++ restStream b cs) :=
        stripStart?_append crlf _
      have hsp := splitFirst_delim hb hC (restStream b cs)
      have hrec : parsePartsAux b fuel (restStream b cs) = some cs := by
        apply ih hcs
        rw [hrest] at hfuel
        simp only [List.length_cons, List.length_append] at hfuel
        omega
      have hdelim : (crlf ++ dashdash ++ b : Str) = '\r' :: '\n' :: '-' :: '-' :: b := rfl
      rw [hrest]
      simp only [parsePartsAux, hsw, Bool.false_eq_true, if_false, hst, hdelim, hsp,
        hrec, Option.map_some']

theorem parseMultipartRaw_encode {b : Str} (hb : '\r' ∉ b)
    (fields : List (Str × Option PyVal)) (files : List (Str × PyFile))
    (hsafe : ∀ C ∈ multipartParts fields files, containsSub b C = false) :
    parseMultipartRaw b (multipartBody b fields files)
      = some (multipartParts fields files) := by
  have hbody : multipartBody b fields files
      = (dashdash ++ b) ++ restStream b (multipartParts fields files) := by
    rw [multipartBody_closed, join_chunks_eq_restStream]
  rw [parseMultipartRaw, hbody, stripStart?_append, Option.some_bind]
  exact parsePartsAux_restStream hb _ hsafe _ (Nat.le_succ _)

theorem no_occ_two_lines {A B' : Str} {B0 : Char} (hA : '\r' ∉ A)
    (hB : '\r' ∉ B0 :: B') (r : Str) :
    ∀ i < (A ++ crlf ++ (B0 :: B')).length,
      startsWith (crlf ++ crlf)
        (((A ++ crlf ++ (B0 :: B')) ++ (crlf ++ crlf) ++ r).drop i) = false := by
  intro i hi
  have hB0 : B0 ≠ '\r' := fun h => hB (h ▸ List.mem_cons_self B0 B')
  have hS : (A ++ crlf ++ (B0 :: B')) ++ (crlf ++ crlf) ++ r
      = A ++ ('\r' :: '\n' :: ((B0 :: B') ++ ('\r' :: '\n' :: '\r' :: '\n' :: r))) := by
    simp [crlf]
  rw [hS]
  rcases Nat.lt_or_ge i A.length with hiA | hiA
  · rw [drop_append_of_le (Nat.le_of_lt hiA)]
    obtain ⟨e, es, hees, hmem⟩ := head_mem_of_drop_lt hiA
    rw [hees, List.cons_append]
    exact startsWith_head_ne (fun h => hA (h ▸ hmem))
  · rw [List.drop_append_eq_append_drop, List.drop_eq_nil_of_le hiA, List.nil_append]
    have hmlt : i - A.length < (B0 :: B').length + 2 := by
      have hlen : (A ++ crlf ++ (B0 :: B')).length = A.length + (B'.length + 3) := by
        simp only [List.length_append, List.length_cons, crlf, List.length_nil]
        omega
      rw [hlen] at hi
      simp only [List.length_cons]
      omega
    obtain ⟨m, hm⟩ : ∃ m, i - A.length = m := ⟨_, rfl⟩
    rw [hm] at hmlt ⊢
    match m, hmlt with
    | 0, _ =>
      rw [List.drop_zero]
      have hb0 : ('\r' == B0) = false := beq_false_of_ne (Ne.symm hB0)
      rw [show ((B0 :: B') ++ ('\r' :: '\n' :: '\r' :: '\n' :: r) : Str)
          = B0 :: (B' ++ ('\r' :: '\n' :: '\r' :: '\n' :: r)) from rfl]
      show (('\r' == '\r') &&
        (('\n' == '\n') && startsWith ('\r' :: '\n' :: [])
          (B0 :: (B' ++ ('\r' :: '\n' :: '\r' :: '\n' :: r))))) = false
      simp [startsWith, hb0]
    | 1, _ =>
      rw [List.drop_succ_cons, List.drop_zero]
      exact startsWith_head_ne (by decide)
    | j + 2, hlt =>
      rw [List.drop_succ_cons, List.drop_succ_cons]
      have hj : j < (B0 :: B').length := by
        simp only [List.length_cons] at hlt ⊢
        omega
      rw [drop_append_of_le (Nat.le_of_lt hj)]
      obtain ⟨e, es, hees, hmem⟩ := head_mem_of_drop_lt hj
      rw [hees, List.cons_append]
      exact startsWith_head_ne (fun h => hB (h ▸ hmem))

theorem cr_notMem_cdTextLine {k : Str} (hcr : '\r' ∉ k) : '\r' ∉ cdTextLine k := by
  intro hmem
  rw [cdTextLine] at hmem
  rcases List.mem_append.mp hmem with h | h
  · rcases List.mem_append.mp h with h | h
    · exact absurd h (by decide)
    · exact hcr h
  · exact absurd h (by decide)

theorem parsePart_text {k : Str} (hq : '"' ∉ k) (hcr : '\r' ∉ k) (v : PyVal) :
    parsePart (textContent k v) = some ⟨k, none, none, pyStr v⟩ := by
  have hline : '\r' ∉ cdTextLine k := cr_notMem_cdTextLine hcr
  have hshape : textContent k v = cdTextLine k ++ (crlf ++ crlf) ++ pyStr v := by
    simp [textContent]
  have hsplit : splitFirst (crlf ++ crlf) (textContent k v)
      = some (cdTextLine k, pyStr v) := by
    rw [hshape]
    exact splitFirst_exact (no_occ_head _ hline _)
  have hnone : splitFirst crlf (cdTextLine k) = none := splitFirst_none_head hline
  have hcd : parseCD (cdTextLine k) = some (k, none) := by
    have h1 : cdTextLine k
        = chars "Content-Disposition: form-data; name=\"" ++ (k ++ ['"'] ++ []) := by
      rw [cdTextLine]
      simp
    rw [parseCD, h1, stripStart?_append, Option.some_bind,
      splitFirst_exact (no_occ_head _ hq _), Option.some_bind]
    simp
  simp only [parsePart, hsplit, Option.some_bind, hnone, hcd, Option.map_some']

theorem cr_notMem_cdFileLine {f fn : Str} (hf : '\r' ∉ f) (hn : '\r' ∉ fn) :
    '\r' ∉ cdFileLine f fn := by
  intro hmem
  rw [cdFileLine] at hmem
  rcases List.mem_append.mp hmem with h | h
  · rcases List.mem_append.mp h with h | h
    · rcases List.mem_append.mp h with h | h
      · rcases List.mem_append.mp h with h | h
        · exact absurd h (by decide)
        · exact hf h
      · exact absurd h (by decide)
    · exact hn h
  · exact absurd h (by decide)

theorem parsePart_file {f fn ct : Str} (hqf : '"' ∉ f) (hcrf : '\r' ∉ f)
    (hqn : '"' ∉ fn) (hcrn : '\r' ∉ fn) (hct : '\r' ∉ ct) (content : Str) :
    parsePart (cdFileLine f fn ++ crlf ++ ctLine ct ++ crlf ++ crlf ++ content)
      = some ⟨f, some fn, some ct, content⟩ := by
  have hA : '\r' ∉ cdFileLine f fn := cr_notMem_cdFileLine hcrf hcrn
  have hBfull : '\r' ∉ ('C' :: (chars "ontent-Type: " ++ ct)) := by
    intro hmem
    rcases List.mem_cons.mp hmem with h | h
    · exact absurd h (by decide)
    · rcases List.mem_append.mp h with h | h
      · exact absurd h (by decide)
      · exact hct h
  have hctshape : ctLine ct = 'C' :: (chars "ontent-Type: " ++ ct) := by
    rw [ctLine]
    rfl
  have hsplit : splitFirst (crlf ++ crlf)
      (cdFileLine f fn ++ crlf ++ ctLine ct ++ crlf ++ crlf ++ content)
      = some (cdFileLine f fn ++ crlf ++ ctLine ct, content) := by
    have hshape : cdFileLine f fn ++ crlf ++ ctLine ct ++ crlf ++ crlf ++ content
        = (cdFileLine f fn ++ crlf ++ ('C' :: (chars "ontent-Type: " ++ ct)))
            ++ (crlf ++ crlf) ++ content := by
      rw [hctshape]
      simp
    rw [hshape, splitFirst_exact (no_occ_two_lines hA hBfull content), ← hctshape]
  have hhdr : splitFirst crlf (cdFileLine f fn ++ crlf ++ ctLine ct)
      = some (cdFileLine f fn, ctLine ct) :=
    splitFirst_exact (no_occ_head _ hA _)
  have hcd : parseCD (cdFileLine f fn) = some (f, some fn) := by
    have h1 : cdFileLine f fn
        = chars "Content-Disposition: form-data; name=\"" ++
            (f ++ ['"'] ++ (chars "; filename=\"" ++ (fn ++ ['"'] ++ []))) := by
      rw [cdFileLine]
      rw [show (chars "\"; filename=\"" : Str) = '"' :: chars "; filename=\"" from rfl]
      simp
    have hne2 : chars "; filename=\"" ++ (fn ++ ['"'] ++ []) ≠ [] := by
      apply List.append_ne_nil_of_left_ne_nil
      decide
    rw [parseCD, h1, stripStart?_append, Option.some_bind,
      splitFirst_exact (no_occ_head _ hqf _), Option.some_bind, if_neg hne2,
      stripStart?_append, Option.some_bind,
      splitFirst_exact (no_occ_head _ hqn _), Option.some_bind]
    simp
  have hctstrip : stripStart? (chars "Content-Type: ") (ctLine ct) = some ct := by
    rw [ctLine]
    exact stripStart?_append _ _
  simp only [parsePart, hsplit, Option.some_bind, hhdr, hcd, hctstrip,
    Option.map_some']

theorem tokenSafe_spec {k : Str} (h : tokenSafe k = true) : '"' ∉ k ∧ '\r' ∉ k := by
  rw [tokenSafe, List.all_eq_true] at h
  constructor <;> intro hmem <;>
    (have hh := h _ hmem; simp at hh)

theorem lookupStr_mem {k v : Str} :
    ∀ {t : List (Str × Str)}, lookupStr k t = some v → ∃ p ∈ t, p.2 = v := by
  intro t h
  induction t with
  | nil => simp [lookupStr] at h
  | cons q qs ih =>
    rw [lookupStr] at h
    split_ifs at h with hq
    · exact ⟨q, List.mem_cons_self q qs, Option.some.inj h⟩
    · obtain ⟨p, hp, hv⟩ := ih h
      exact ⟨p, List.mem_cons_of_mem _ hp, hv⟩

theorem mimeGuess_no_cr (fn : Str) : '\r' ∉ mimeGuess fn := by
  intro hmem
  simp only [mimeGuess] at hmem
  cases hlk : lookupStr ((splitextExt fn).map Char.toLower) mimeTable with
  | none =>
    rw [hlk] at hmem
    simp only [Option.getD_none] at hmem
    exact absurd hmem (by decide)
  | some v =>
    rw [hlk] at hmem
    simp only [Option.getD_some] at hmem
    obtain ⟨p, hp, rfl⟩ := lookupStr_mem hlk
    have hall : ∀ q ∈ mimeTable, '\r' ∉ q.2 := by decide
    exact hall p hp hmem

theorem partsMapOpt_append {xs ys : List Str} {ps qs : List MPart}
    (hx : partsMapOpt xs = some ps) (hy : partsMapOpt ys = some qs) :
    partsMapOpt (xs ++ ys) = some (ps ++ qs) := by
  induction xs generalizing ps with
  | nil =>
    rw [partsMapOpt] at hx
    have hps := Option.some.inj hx
    subst hps
    simpa using hy
  | cons c cs ih =>
    rw [partsMapOpt] at hx
    cases hpc : parsePart c with
    | none =>
      rw [hpc] at hx
      simp at hx
    | some p =>
      rw [hpc, Option.some_bind] at hx
      cases hcs : partsMapOpt cs with
      | none =>
        rw [hcs] at hx
        simp at hx
      | some ps' =>
        rw [hcs, Option.map_some'] at hx
        have hps := Option.some.inj hx
        subst hps
        rw [List.cons_append, partsMapOpt, hpc, Option.some_bind, ih hcs,
          Option.map_some']
        rfl

theorem partsMapOpt_textParts {b : Str} (fields : List (Str × Option PyVal))
    (hsafe : ∀ p ∈ fields, fieldSafe b p = true) :
    partsMapOpt (fields.filterMap (fun p => p.2.map (fun v => textContent p.1 v)))
      = some (fields.filterMap
          (fun p => p.2.map (fun v => MPart.mk p.1 none none (pyStr v)))) := by
  induction fields with
  | nil => rfl
  | cons x xs ih =>
    obtain ⟨k, ov⟩ := x
    have hx := hsafe (k, ov) (List.mem_cons_self _ _)
    have hxs : ∀ p ∈ xs, fieldSafe b p = true :=
      fun p hp => hsafe p (List.mem_cons_of_mem _ hp)
    cases ov with
    | none => simpa [List.filterMap_cons] using ih hxs
    | some v =>
      rw [fieldSafe] at hx
      simp only [Bool.and_eq_true] at hx
      obtain ⟨hq, hcr⟩ := tokenSafe_spec hx.1
      simp only [List.filterMap_cons, Option.map_some']
      rw [partsMapOpt, parsePart_text hq hcr v, Option.some_bind, ih hxs,
        Option.map_some']

theorem partsMapOpt_fileParts {b : Str} (files : List (Str × PyFile))
    (hsafe : ∀ p ∈ files, fileSafe b p = true) :
    partsMapOpt (files.map (fun p => fileContent p.1 p.2))
      = some (files.map (fun p =>
          MPart.mk p.1 (some (basename p.2.name))
            (some (mimeGuess (basename p.2.name))) p.2.content)) := by
  induction files with
  | nil => rfl
  | cons x xs ih =>
    have hx := hsafe x (List.mem_cons_self _ _)
    have hxs : ∀ p ∈ xs, fileSafe b p = true :=
      fun p hp => hsafe p (List.mem_cons_of_mem _ hp)
    rw [fileSafe] at hx
    simp only [Bool.and_eq_true] at hx
    obtain ⟨⟨htf, htn⟩, _⟩ := hx
    obtain ⟨hqf, hcrf⟩ := tokenSafe_spec htf
    obtain ⟨hqn, hcrn⟩ := tokenSafe_spec htn
    simp only [List.map_cons]
    rw [partsMapOpt]
    rw [show fileContent x.1 x.2
        = cdFileLine x.1 (basename x.2.name) ++ crlf ++
            ctLine (mimeGuess (basename x.2.name)) ++ crlf ++ crlf ++ x.2.content
      from rfl]
    rw [parsePart_file hqf hcrf hqn hcrn (mimeGuess_no_cr _) _, Option.some_bind,
      ih hxs, Option.map_some']

/-! ## Claim C1 -/

set_option maxRecDepth 8192 in
/-- C1 counterexample: the claim restricts only the file content (here
`IMGDATA`, boundary-free), yet a text-field value carrying a forged
delimiter makes a conformant parse recover different fields than the
original mapping — the round trip fails as stated. -/
theorem c1_counterexample :
    containsSub cexBoundary (chars "IMGDATA") = false ∧
    parseMultipart cexBoundary (multipartBody cexBoundary cexFields cexFiles)
      ≠ some (expectedParts cexFields cexFiles) := by
  exact ⟨by decide, by decide⟩

/-- C1 amended: the multipart round trip holds for every boundary drawn
from `uuid4().hex` and every argument mapping whose field names and
filename contain no quote or CR and whose part contents (headers, values
and file bytes) do not contain the boundary token: a conformant parse of
the generated body recovers exactly the non-absent fields in order
(name and stringified value) and the file field with the basename of its
path, the content type guessed from that name, and its byte-for-byte
content. -/
theorem c1_multipart_round_trip :
    ∀ (b : Str) (fields : List (Str × Option PyVal)) (files : List (Str × PyFile)),
      isBoundaryTok b = true →
      (∀ p ∈ fields, fieldSafe b p = true) →
      (∀ p ∈ files, fileSafe b p = true) →
      parseMultipart b (multipartBody b fields files)
        = some (expectedParts fields files) := by
  intro b fields files hb hf hl
  have hbcr : '\r' ∉ b := isBoundaryTok_no_cr hb
  have hsafeC : ∀ C ∈ multipartParts fields files, containsSub b C = false := by
    intro C hC
    rw [multipartParts] at hC
    rcases List.mem_append.mp hC with hC | hC
    · obtain ⟨p, hp, hpc⟩ := List.mem_filterMap.mp hC
      obtain ⟨k, ov⟩ := p
      cases ov with
      | none => simp at hpc
      | some v =>
        simp only [Option.map_some', Option.some.injEq] at hpc
        have hx := hf (k, some v) hp
        rw [fieldSafe] at hx
        simp only [Bool.and_eq_true, Bool.not_eq_true'] at hx
        rw [← hpc]
        exact hx.2
    · obtain ⟨p, hp, hpc⟩ := List.mem_map.mp hC
      have hx := hl p hp
      rw [fileSafe] at hx
      simp only [Bool.and_eq_true, Bool.not_eq_true'] at hx
      rw [← hpc]
      exact hx.2
  rw [parseMultipart, parseMultipartRaw_encode hbcr fields files hsafeC,
    Option.some_bind, multipartParts, expectedParts]
  exact partsMapOpt_append (partsMapOpt_textParts fields hf)
    (partsMapOpt_fileParts files hl)

/-- C1 witness: the amended round trip at a concrete boundary, field
mapping (with one absent value) and file whose content contains `--`. -/
theorem c1_witness :
    isBoundaryTok cexBoundary2 = true ∧
    (∀ p ∈ rtFields, fieldSafe cexBoundary2 p = true) ∧
    (∀ p ∈ rtFiles, fileSafe cexBoundary2 p = true) ∧
    parseMultipart cexBoundary2 (multipartBody cexBoundary2 rtFields rtFiles)
      = some (expectedParts rtFields rtFiles) :=
  ⟨by decide, by decide, by decide,
    c1_multipart_round_trip cexBoundary2 rtFields rtFiles (by decide) (by decide)
      (by decide)⟩
